import Mathlib

/-!
Verification development for the cunumeric matrix-operation shims:
the trilu CUDA kernel (`trilu.cu`), the CPU syrk dispatcher (`syrk.cc`),
the OpenMP contract dispatcher (`contract_omp.cc`) and the error-check
helpers of `cuda_help.h`.  C++ values, element buffers and process state
are shallowly embedded: points are integer lists, arrays are functions
from points to values, GPU writes are explicit (point, value) pairs, and
stateful shims are state transformers over an explicit process state.
-/

namespace Cunumeric

/-- `THREADS_PER_BLOCK` from `cuda_help.h`. -/
def THREADS_PER_BLOCK : Nat := 128

/-- `MIN_CTAS_PER_SM` from `cuda_help.h`. -/
def MIN_CTAS_PER_SM : Nat := 4

/-! ## Points and pitches

A `Point<DIM>` is embedded as a `List Int` of length `DIM`; a dense
rectangle is described by its per-dimension extents (a `List Nat`) and
its low corner `lo`.  `Pitches<DIM-1>` stores, for each non-final
dimension, the product of the extents of the following dimensions;
`unflatten` is mixed-radix decoding of a linear index by those pitches.
-/

/-- Modelled from the spec: the repository's `Pitches::unflatten`
(declared in `cunumeric/pitches.h`, not part of the given sources)
decodes a linear index over a dense rectangle with the given extents
into per-dimension offsets: each dimension's offset is the index
divided by that dimension's pitch (the product of the later extents),
and the remainder is carried to the later dimensions. -/
def unflattenDigits : List Nat → Nat → List Nat
  | [], _ => []
  | _ :: rest, idx => idx / rest.prod :: unflattenDigits rest (idx % rest.prod)

/-- `pitches.unflatten(idx, lo)`: the decoded offsets added to the low
corner `lo`, giving the point a linear index denotes. -/
def unflatten (extents : List Nat) (idx : Nat) (lo : List Int) : List Int :=
  List.zipWith (fun (l : Int) (d : Nat) => l + (d : Int)) lo (unflattenDigits extents idx)

/-- `p[DIM - 2]`: the row coordinate of a point (second-to-last entry). -/
def pointRow (p : List Int) : Int := p.getD (p.length - 2) 0

/-- `p[DIM - 1]`: the column coordinate of a point (last entry). -/
def pointCol (p : List Int) : Int := p.getD (p.length - 1) 0

/-! ## The trilu kernel (`trilu.cu`) -/

/-- The branch condition of the `LOWER` instantiation of `trilu_kernel`:
`p[DIM - 2] + k >= p[DIM - 1]`. -/
def lowerCond (k : Int) (p : List Int) : Bool := pointCol p ≤ pointRow p + k

/-- The branch condition of the upper (non-`LOWER`) instantiation of
`trilu_kernel`: `p[DIM - 2] + k <= p[DIM - 1]`. -/
def upperCond (k : Int) (p : List Int) : Bool := pointRow p + k ≤ pointCol p

/-- The value `trilu_kernel` stores at point `p`: the input element when
the triangle condition holds, `0` otherwise. -/
def triluValue (lower : Bool) (k : Int) (inA : List Int → Int) (p : List Int) : Int :=
  if lower then (if lowerCond k p then inA p else 0)
  else (if upperCond k p then inA p else 0)

/-- One thread of `trilu_kernel`, as the list of writes it performs:
a thread with `idx >= volume` returns at once and writes nothing;
otherwise it unflattens `idx` to a point `p` and writes the single
element `out[p]`. -/
def trilu_kernel (lower : Bool) (inA : List Int → Int) (extents : List Nat)
    (lo : List Int) (volume : Nat) (k : Int) (idx : Nat) : List (List Int × Int) :=
  if volume ≤ idx then []
  else
    [(unflatten extents idx lo, triluValue lower k inA (unflatten extents idx lo))]

/-- The modulus of 32-bit unsigned arithmetic, `2 ^ 32`. -/
def uint32Size : Nat := 4294967296

/-- The linear index `blockIdx.x * blockDim.x + threadIdx.x` as the
kernel computes it: `blockIdx.x`, `blockDim.x` and `threadIdx.x` are
32-bit unsigned values, so the product and sum wrap modulo `2 ^ 32`
before the widening assignment to `const size_t idx`. -/
def threadLinearIndex (b t : Nat) : Nat :=
  (b * THREADS_PER_BLOCK + t) % uint32Size

/-! ## The GPU trilu launch (`TriluImplBody<VariantKind::GPU>`) -/

/-- The block count computed by the GPU impl body:
`(volume + THREADS_PER_BLOCK - 1) / THREADS_PER_BLOCK`. -/
def triluBlocks (volume : Nat) : Nat :=
  (volume + THREADS_PER_BLOCK - 1) / THREADS_PER_BLOCK

/-- An observable action of the GPU impl body around the kernel launch. -/
inductive GpuEffect where
  | launch (blocks threads : Nat)
  | errorCheck (what : String)
  | retryLaunch (blocks threads : Nat)
  | acquireResource (what : String)
  | releaseResource (what : String)
  deriving DecidableEq, Repr

/-- `TriluImplBody<VariantKind::GPU>::operator()` as its trace of
observable actions: it computes the block count and launches the kernel
once, with no check, retry or resource management around the launch. -/
def triluGpuBodyTrace (volume : Nat) : List GpuEffect :=
  [GpuEffect.launch (triluBlocks volume) THREADS_PER_BLOCK]

/-! ## Executing write sets

A GPU write `out[p] = v` updates an array; executing a list of writes in
order folds those updates.  The grid launch executes all threads' writes
in some arbitrary interleaving, i.e. some permutation of the write list.
-/

/-- Apply a single write `out[p] = v` to an array. -/
def updWrite (f : List Int → Int) (w : List Int × Int) : List Int → Int :=
  fun q => if q = w.1 then w.2 else f q

/-- Execute a list of writes in order, starting from `init`. -/
def runWrites (ws : List (List Int × Int)) (init : List Int → Int) : List Int → Int :=
  ws.foldl updWrite init

/-- The writes of the sequential loop `for idx in 0 .. volume - 1`
executing the kernel body at each index in order. -/
def triluSeqWrites (lower : Bool) (inA : List Int → Int) (extents : List Nat)
    (lo : List Int) (k : Int) : List (List Int × Int) :=
  (List.range extents.prod).flatMap
    (trilu_kernel lower inA extents lo extents.prod k)

/-- The writes of the full GPU grid, enumerated in thread order: grid
thread `i` (block `i / THREADS_PER_BLOCK`, thread `i % THREADS_PER_BLOCK`)
runs the kernel at its 32-bit computed linear index. -/
def triluGridWrites (lower : Bool) (inA : List Int → Int) (extents : List Nat)
    (lo : List Int) (k : Int) : List (List Int × Int) :=
  (List.range (triluBlocks extents.prod * THREADS_PER_BLOCK)).flatMap
    (fun i => trilu_kernel lower inA extents lo extents.prod k
      (threadLinearIndex (i / THREADS_PER_BLOCK) (i % THREADS_PER_BLOCK)))

/-! ## The CPU syrk dispatcher (`syrk.cc`)

Raw element buffers never flow through the shim; only their base
pointers do, embedded as numeric identifiers.
-/

/-- The element-type codes `SyrkImplBody` is specialised at. -/
inductive SyrkType where
  | floatT
  | doubleT
  | complex64
  | complex128
  deriving DecidableEq

/-- The cBLAS rank-k routines: the four the dispatcher reaches
(`ssyrk`, `dsyrk`, `cherk`, `zherk`) and the vendor's complex symmetric
rank-k routines (`csyrk`, `zsyrk`), which it does not. -/
inductive BlasRoutine where
  | ssyrk
  | dsyrk
  | cherk
  | zherk
  | csyrk
  | zsyrk
  deriving DecidableEq

/-- `CBLAS_ORDER`. -/
inductive CblasOrder where
  | colMajor
  | rowMajor
  deriving DecidableEq

/-- `CBLAS_UPLO`. -/
inductive CblasUplo where
  | lower
  | upper
  deriving DecidableEq

/-- `CBLAS_TRANSPOSE`. -/
inductive CblasTranspose where
  | noTrans
  | transposed
  | conjTransposed
  deriving DecidableEq

/-- The full argument tuple of one cBLAS rank-k invocation. -/
structure SyrkCall where
  routine : BlasRoutine
  order : CblasOrder
  uplo : CblasUplo
  transA : CblasTranspose
  m : Int
  n : Int
  alpha : Int
  aPtr : Nat
  lda : Int
  beta : Int
  cPtr : Nat
  ldc : Int
  deriving DecidableEq

/-- `syrk_template` from `syrk.cc`: the single call
`syrk(CblasColMajor, CblasLower, CblasNoTrans, m, n, -1.0, rhs, m, 1.0, lhs, m)`. -/
def syrk_template (routine : BlasRoutine) (lhs rhs : Nat) (m n : Int) : SyrkCall :=
  ⟨routine, .colMajor, .lower, .noTrans, m, n, -1, rhs, m, 1, lhs, m⟩

/-- `complex_syrk_template` from `syrk.cc`: textually identical to
`syrk_template`. -/
def complex_syrk_template (routine : BlasRoutine) (lhs rhs : Nat) (m n : Int) : SyrkCall :=
  ⟨routine, .colMajor, .lower, .noTrans, m, n, -1, rhs, m, 1, lhs, m⟩

/-- `SyrkImplBody<VariantKind::CPU, CODE>::operator()`: the routine each
type-code specialisation hands to its template. -/
def SyrkImplBody (t : SyrkType) (lhs rhs : Nat) (m n : Int) : SyrkCall :=
  match t with
  | .floatT => syrk_template .ssyrk lhs rhs m n
  | .doubleT => syrk_template .dsyrk lhs rhs m n
  | .complex64 => complex_syrk_template .cherk lhs rhs m n
  | .complex128 => complex_syrk_template .zherk lhs rhs m n

/-- Written from the claim's words, for comparison with the dispatch in
the source: the vendor's *symmetric* rank-k routine for each supported
element type (`cblas_ssyrk`, `cblas_dsyrk`, `cblas_csyrk`,
`cblas_zsyrk`). -/
def vendorSymmetricRankK (t : SyrkType) : BlasRoutine :=
  match t with
  | .floatT => .ssyrk
  | .doubleT => .dsyrk
  | .complex64 => .csyrk
  | .complex128 => .zsyrk

/-! ## Error-check macros and helpers (`cuda_help.h`) -/

/-- The error-check macros defined (not merely used) in the
repository's own `cuda_help.h`. -/
def cudaHelpErrorCheckMacros : List String :=
  ["CHECK_CUDA", "CHECK_CUBLAS", "CHECK_CUFFT", "CHECK_CUSOLVER", "CHECK_CUTENSOR"]

/-- The error-check helper functions defined in the repository's own
`cuda_help.h`. -/
def cudaHelpErrorCheckHelpers : List String :=
  ["check_cuda", "check_cublas", "check_cufft", "check_cusolver", "check_cutensor"]

/-- The helper each macro's body invokes on the status it captures. -/
def macroHelper (m : String) : Option String :=
  if m = "CHECK_CUDA" then some "check_cuda"
  else if m = "CHECK_CUBLAS" then some "check_cublas"
  else if m = "CHECK_CUFFT" then some "check_cufft"
  else if m = "CHECK_CUSOLVER" then some "check_cusolver"
  else if m = "CHECK_CUTENSOR" then some "check_cutensor"
  else none

/-- Outcome of one of the `check_*` helpers: fall through, or print a
diagnostic and terminate via `exit(code)`. -/
inductive CheckOutcome where
  | normal
  | exited (diagnostic : String) (code : Int)
  deriving DecidableEq

/-- `cudaSuccess` (value 0 in the CUDA runtime headers). -/
def cudaSuccess : Int := 0

/-- `CUBLAS_STATUS_SUCCESS` (value 0). -/
def CUBLAS_STATUS_SUCCESS : Int := 0

/-- `CUFFT_SUCCESS` (value 0). -/
def CUFFT_SUCCESS : Int := 0

/-- `CUSOLVER_STATUS_SUCCESS` (value 0). -/
def CUSOLVER_STATUS_SUCCESS : Int := 0

/-- `CUTENSOR_STATUS_SUCCESS` (value 0). -/
def CUTENSOR_STATUS_SUCCESS : Int := 0

/-- `check_cuda` from `cuda_help.h`. -/
def check_cuda (error : Int) (file : String) (line : Int) : CheckOutcome :=
  if error ≠ cudaSuccess then
    .exited ("Internal CUDA failure with error in file " ++ file ++ " at line " ++
      toString line) error
  else .normal

/-- `check_cublas` from `cuda_help.h`. -/
def check_cublas (status : Int) (file : String) (line : Int) : CheckOutcome :=
  if status ≠ CUBLAS_STATUS_SUCCESS then
    .exited ("Internal cuBLAS failure with error code " ++ toString status ++
      " in file " ++ file ++ " at line " ++ toString line) status
  else .normal

/-- `check_cufft` from `cuda_help.h`. -/
def check_cufft (result : Int) (file : String) (line : Int) : CheckOutcome :=
  if result ≠ CUFFT_SUCCESS then
    .exited ("Internal cuFFT failure with error code " ++ toString result ++
      " in file " ++ file ++ " at line " ++ toString line) result
  else .normal

/-- `check_cusolver` from `cuda_help.h`. -/
def check_cusolver (status : Int) (file : String) (line : Int) : CheckOutcome :=
  if status ≠ CUSOLVER_STATUS_SUCCESS then
    .exited ("Internal cuSOLVER failure with error code " ++ toString status ++
      " in file " ++ file ++ " at line " ++ toString line) status
  else .normal

/-- `check_cutensor` from `cuda_help.h`. -/
def check_cutensor (result : Int) (file : String) (line : Int) : CheckOutcome :=
  if result ≠ CUTENSOR_STATUS_SUCCESS then
    .exited ("Internal Legate CUTENSOR failure with error in file " ++ file ++
      " at line " ++ toString line) result
  else .normal

/-! ## The OpenMP contract dispatcher (`contract_omp.cc`) -/

/-- A tblis tensor descriptor as produced by `tblis_init_tensor_*`:
rank, shape, strides and the forwarded raw data pointer. -/
structure TblisTensor where
  ndim : Nat
  shape : List Int
  strides : List Int
  dataPtr : Nat
  deriving DecidableEq

/-- `tblis_init_tensor_{s,d,c,z}`: wrap metadata and pointer, changing
neither. -/
def tblis_init_tensor (ndim : Nat) (shape : List Int) (dataPtr : Nat)
    (strides : List Int) : TblisTensor :=
  ⟨ndim, shape, strides, dataPtr⟩

/-- The per-operand arguments handed to the contract impl body. -/
structure Operand where
  dataPtr : Nat
  ndim : Nat
  shape : List Int
  strides : List Int
  modes : List Int
  deriving DecidableEq

/-- An observable action of a shim invocation. -/
inductive ShimEffect where
  | setEnvEff (name value : String) (overwrite : Bool)
  | setOpenblasThreads (n : Nat)
  | readElement (ptr : Nat)
  | writeElement (ptr : Nat)
  | tblisMult (rhs1 : TblisTensor) (rhs1Modes : List Int)
      (rhs2 : TblisTensor) (rhs2Modes : List Int)
      (lhs : TblisTensor) (lhsModes : List Int)
  | cblasCall (call : SyrkCall)
  | kernelLaunchEff (blocks threads : Nat)
  deriving DecidableEq

/-- `ContractImplBody<VariantKind::OMP, CODE>::operator()`: initialise
the three descriptors from the given metadata and pointers, then the
single `tblis_tensor_mult` call. -/
def ContractImplBody (lhs rhs1 rhs2 : Operand) : List ShimEffect :=
  [ShimEffect.tblisMult
      (tblis_init_tensor rhs1.ndim rhs1.shape rhs1.dataPtr rhs1.strides) rhs1.modes
      (tblis_init_tensor rhs2.ndim rhs2.shape rhs2.dataPtr rhs2.strides) rhs2.modes
      (tblis_init_tensor lhs.ndim lhs.shape lhs.dataPtr lhs.strides) lhs.modes]

/-- `ContractTask::omp_variant`: format `omp_get_max_threads()`, set
`TBLIS_NUM_THREADS` without overwriting, then dispatch to the impl
body. -/
def contractOmpVariant (maxThreads : Nat) (lhs rhs1 rhs2 : Operand) : List ShimEffect :=
  ShimEffect.setEnvEff "TBLIS_NUM_THREADS" (toString maxThreads) false ::
    ContractImplBody lhs rhs1 rhs2

/-- `SyrkTask::cpu_variant`: under `LEGATE_USE_OPENMP` it first pins
OpenBLAS to one thread, then dispatches to the impl body's single
cBLAS call. -/
def syrkCpuVariantTrace (useOpenmp : Bool) (t : SyrkType) (lhsPtr rhsPtr : Nat)
    (m n : Int) : List ShimEffect :=
  (if useOpenmp then [ShimEffect.setOpenblasThreads 1] else []) ++
    [ShimEffect.cblasCall (SyrkImplBody t lhsPtr rhsPtr m n)]

/-- `TriluTask::gpu_variant` dispatching to
`TriluImplBody<VariantKind::GPU>`: the single kernel launch. -/
def triluGpuVariantTrace (volume : Nat) : List ShimEffect :=
  [ShimEffect.kernelLaunchEff (triluBlocks volume) THREADS_PER_BLOCK]

/-! ## Process-level state across shim invocations -/

/-- The process-level state the shims touch: the environment and the
OpenBLAS thread setting. -/
structure ProcState where
  env : List (String × String)
  openblasThreads : Option Nat
  deriving DecidableEq

/-- POSIX `setenv` with `overwrite = 0`: an existing binding is kept,
otherwise the new binding is added. -/
def setenvNoOverwrite (env : List (String × String)) (name value : String) :
    List (String × String) :=
  if (env.lookup name).isSome then env else (name, value) :: env

/-- The process-state effect of `ContractTask::omp_variant`:
`setenv("TBLIS_NUM_THREADS", <max threads>, false)`. -/
def contractOmpState (maxThreads : Nat) (st : ProcState) : ProcState :=
  ⟨setenvNoOverwrite st.env "TBLIS_NUM_THREADS" (toString maxThreads), st.openblasThreads⟩

/-- The process-state effect of `SyrkTask::cpu_variant` in an OpenMP
build: `openblas_set_num_threads(1)`. -/
def syrkCpuState (st : ProcState) : ProcState :=
  ⟨st.env, some 1⟩

/-- The process-state effect of `TriluTask::gpu_variant`: none. -/
def triluGpuState (st : ProcState) : ProcState := st

end Cunumeric

namespace Cunumeric

/-- C1: on an in-range index the kernel writes exactly one element, at
`p = unflatten idx lo`, whose value is `in[p]` under the instantiation's
triangle condition and `0` otherwise. -/
theorem trilu_kernel_in_range (lower : Bool) (inA : List Int → Int) (extents : List Nat)
    (lo : List Int) (volume : Nat) (k : Int) (idx : Nat) (h : idx < volume) :
    trilu_kernel lower inA extents lo volume k idx =
      [(unflatten extents idx lo,
        if (if lower then pointCol (unflatten extents idx lo) ≤
              pointRow (unflatten extents idx lo) + k
            else pointRow (unflatten extents idx lo) + k ≤
              pointCol (unflatten extents idx lo)) then
          inA (unflatten extents idx lo)
        else 0)] := by
  unfold trilu_kernel triluValue lowerCond upperCond
  rw [if_neg (by omega)]
  cases lower <;> simp

/-- Witness for `trilu_kernel_in_range`: a concrete 2x2 lower-trilu
thread at linear index 1 (point [0, 1], above the diagonal) writes 0. -/
theorem trilu_kernel_in_range_witness :
    (1 : Nat) < 4 ∧
      trilu_kernel true (fun _ => 7) [2, 2] [0, 0] 4 0 1 =
        [(unflatten [2, 2] 1 [0, 0],
          if (if true then pointCol (unflatten [2, 2] 1 [0, 0]) ≤
                pointRow (unflatten [2, 2] 1 [0, 0]) + 0
              else pointRow (unflatten [2, 2] 1 [0, 0]) + 0 ≤
                pointCol (unflatten [2, 2] 1 [0, 0])) then
            (fun _ => (7 : Int)) (unflatten [2, 2] 1 [0, 0])
          else 0)] :=
  ⟨by decide, trilu_kernel_in_range true (fun _ => 7) [2, 2] [0, 0] 4 0 1 (by decide)⟩

/-- C5 counterexample: at volume `2 ^ 32 + 1` (a launchable grid of
`2 ^ 25 + 1` blocks) the 32-bit computation of the thread's linear
index wraps, so it is not the case that every index below the volume is
computed by exactly one thread: distinct threads `(0, 0)` and
`(2 ^ 25, 0)` both compute index 0. -/
theorem trilu_gpu_thread_collision :
    ¬ ∀ idx, idx < 2 ^ 32 + 1 →
        ∃! bt : Nat × Nat, bt.1 < triluBlocks (2 ^ 32 + 1) ∧
          bt.2 < THREADS_PER_BLOCK ∧ threadLinearIndex bt.1 bt.2 = idx := by
  intro h
  obtain ⟨bt, hbt, huniq⟩ := h 0 (by decide)
  have h1 := huniq (0, 0) ⟨by decide, by decide, by decide⟩
  have h2 := huniq (33554432, 0) ⟨by decide, by decide, by decide⟩
  rw [← h1] at h2
  exact absurd h2 (by decide)

/-- C5 amended: for positive volume at most `2 ^ 32` the GPU impl body
is a single kernel launch of `ceil(volume / THREADS_PER_BLOCK)` blocks
of `THREADS_PER_BLOCK` threads; the launched threads number at least
`volume`, every in-range index is computed (as the 32-bit
`blockIdx.x * blockDim.x + threadIdx.x`) by exactly one thread, threads
whose computed index reaches the volume return without writing, and no
action besides the one launch surrounds it.  Beyond `2 ^ 32` the index
computation wraps and the one-to-one coverage fails. -/
theorem trilu_gpu_single_launch (volume : Nat) (hv : 0 < volume)
    (h32 : volume ≤ uint32Size) :
    triluGpuBodyTrace volume =
        [GpuEffect.launch (triluBlocks volume) THREADS_PER_BLOCK] ∧
      volume ≤ triluBlocks volume * THREADS_PER_BLOCK ∧
      (∀ idx, idx < volume →
        ∃! bt : Nat × Nat, bt.1 < triluBlocks volume ∧ bt.2 < THREADS_PER_BLOCK ∧
          threadLinearIndex bt.1 bt.2 = idx) ∧
      (∀ (lower : Bool) (inA : List Int → Int) (extents : List Nat) (lo : List Int)
          (k : Int) (b t : Nat), volume ≤ threadLinearIndex b t →
        trilu_kernel lower inA extents lo volume k (threadLinearIndex b t) = []) ∧
      (∀ e ∈ triluGpuBodyTrace volume,
        e = GpuEffect.launch (triluBlocks volume) THREADS_PER_BLOCK) := by
  have h32b : volume ≤ 4294967296 := h32
  refine ⟨rfl, ?_, ?_, ?_, ?_⟩
  · unfold triluBlocks THREADS_PER_BLOCK
    omega
  · intro idx hidx
    have hb : idx / THREADS_PER_BLOCK < triluBlocks volume := by
      unfold triluBlocks THREADS_PER_BLOCK
      omega
    have hthread : threadLinearIndex (idx / THREADS_PER_BLOCK) (idx % THREADS_PER_BLOCK) =
        idx := by
      show (idx / 128 * 128 + idx % 128) % 4294967296 = idx
      omega
    refine ⟨(idx / THREADS_PER_BLOCK, idx % THREADS_PER_BLOCK),
      ⟨hb, by unfold THREADS_PER_BLOCK; omega, hthread⟩, ?_⟩
    rintro ⟨b, t⟩ ⟨hb2, ht2, heq⟩
    have hb2' : b < (volume + 128 - 1) / 128 := hb2
    have ht2' : t < 128 := ht2
    have heq' : (b * 128 + t) % 4294967296 = idx := heq
    have hbv : b = idx / 128 := by omega
    have htv : t = idx % 128 := by omega
    subst hbv htv
    rfl
  · intro lower inA extents lo k b t hge
    unfold trilu_kernel
    rw [if_pos hge]
  · intro e he
    simpa [triluGpuBodyTrace] using he

/-- Witness for `trilu_gpu_single_launch` at volume 5: the block count
covers all 5 indices. -/
theorem trilu_gpu_single_launch_witness :
    (0 : Nat) < 5 ∧ (5 : Nat) ≤ uint32Size ∧ 5 ≤ triluBlocks 5 * THREADS_PER_BLOCK :=
  ⟨by decide, by decide, (trilu_gpu_single_launch 5 (by decide) (by decide)).2.1⟩

/-- C8: for every point and offset, exactly one of the lower condition
with offset `k` and the upper condition with offset `k + 1` holds, and
the lower extraction at `k` plus the upper extraction at `k + 1`
reproduces the input elementwise. -/
theorem trilu_lower_upper_partition (k : Int) (p : List Int) (inA : List Int → Int) :
    ((lowerCond k p = true ∧ upperCond (k + 1) p = false) ∨
      (lowerCond k p = false ∧ upperCond (k + 1) p = true)) ∧
      triluValue true k inA p + triluValue false (k + 1) inA p = inA p := by
  by_cases h : pointCol p ≤ pointRow p + k
  · have h2 : ¬ pointRow p + (k + 1) ≤ pointCol p := by omega
    refine ⟨Or.inl ⟨by simp [lowerCond, h], by simp [upperCond, h2]⟩, ?_⟩
    simp [triluValue, lowerCond, upperCond, h, h2]
  · have h2 : pointRow p + (k + 1) ≤ pointCol p := by omega
    refine ⟨Or.inr ⟨by simp [lowerCond, h], by simp [upperCond, h2]⟩, ?_⟩
    simp [triluValue, lowerCond, upperCond, h, h2]

theorem unflattenDigits_length (es : List Nat) (idx : Nat) :
    (unflattenDigits es idx).length = es.length := by
  induction es generalizing idx with
  | nil => rfl
  | cons e rest ih => simp [unflattenDigits, ih]

theorem unflattenDigits_inj (es : List Nat) (i j : Nat) (hi : i < es.prod)
    (hj : j < es.prod) (h : unflattenDigits es i = unflattenDigits es j) : i = j := by
  induction es generalizing i j with
  | nil =>
    have h1 : ([] : List Nat).prod = 1 := rfl
    rw [h1] at hi hj
    omega
  | cons e rest ih =>
    simp only [unflattenDigits, List.cons.injEq] at h
    obtain ⟨h1, h2⟩ := h
    have hP : 0 < rest.prod := by
      rcases Nat.eq_zero_or_pos rest.prod with h0 | h0
      · rw [List.prod_cons, h0, Nat.mul_zero] at hi
        omega
      · exact h0
    have h3 := ih (i % rest.prod) (j % rest.prod) (Nat.mod_lt _ hP) (Nat.mod_lt _ hP) h2
    calc i = rest.prod * (i / rest.prod) + i % rest.prod := (Nat.div_add_mod i rest.prod).symm
      _ = rest.prod * (j / rest.prod) + j % rest.prod := by rw [h1, h3]
      _ = j := Nat.div_add_mod j rest.prod

theorem zipWith_add_right_cancel (lo : List Int) (d1 d2 : List Nat)
    (h1 : d1.length = lo.length) (h2 : d2.length = lo.length)
    (h : List.zipWith (fun (l : Int) (d : Nat) => l + (d : Int)) lo d1 =
      List.zipWith (fun (l : Int) (d : Nat) => l + (d : Int)) lo d2) : d1 = d2 := by
  induction lo generalizing d1 d2 with
  | nil =>
    cases d1 with
    | nil =>
      cases d2 with
      | nil => rfl
      | cons y ys => simp at h2
    | cons x xs => simp at h1
  | cons a lo ih =>
    cases d1 with
    | nil => simp at h1
    | cons x xs =>
      cases d2 with
      | nil => simp at h2
      | cons y ys =>
        simp only [List.zipWith_cons_cons, List.cons.injEq] at h
        obtain ⟨hxy, hrest⟩ := h
        have hx : x = y := by exact_mod_cast add_left_cancel hxy
        have hxs := ih xs ys (by simpa using h1) (by simpa using h2) hrest
        rw [hx, hxs]

theorem unflatten_inj (extents : List Nat) (lo : List Int)
    (hlen : lo.length = extents.length) (i j : Nat) (hi : i < extents.prod)
    (hj : j < extents.prod) (hij : i ≠ j) :
    unflatten extents i lo ≠ unflatten extents j lo := by
  intro h
  apply hij
  apply unflattenDigits_inj extents i j hi hj
  apply zipWith_add_right_cancel lo _ _ ?_ ?_ h
  · rw [unflattenDigits_length]
    exact hlen.symm
  · rw [unflattenDigits_length]
    exact hlen.symm

theorem updWrite_comm (init : List Int → Int) (x y : List Int × Int) (hxy : x.1 ≠ y.1) :
    updWrite (updWrite init x) y = updWrite (updWrite init y) x := by
  funext q
  unfold updWrite
  by_cases hqx : q = x.1
  · by_cases hqy : q = y.1
    · exact absurd (hqx.symm.trans hqy) hxy
    · simp [hqx, hqy, hxy]
  · by_cases hqy : q = y.1 <;> simp [hqx, hqy, hxy, Ne.symm hxy]

theorem runWrites_perm (ws1 ws2 : List (List Int × Int)) (hp : ws1.Perm ws2)
    (hnd : (ws1.map Prod.fst).Nodup) :
    ∀ init, runWrites ws1 init = runWrites ws2 init := by
  revert hnd
  induction hp with
  | nil =>
    intro _ init
    rfl
  | cons x hp ih =>
    intro hnd init
    rw [List.map_cons, List.nodup_cons] at hnd
    exact ih hnd.2 (updWrite init x)
  | swap x y l =>
    intro hnd init
    have hyx : y.1 ≠ x.1 := by
      rw [List.map_cons, List.map_cons, List.nodup_cons] at hnd
      intro h
      exact hnd.1 (by rw [h]; exact List.mem_cons_self _ _)
    show List.foldl updWrite (updWrite (updWrite init y) x) l =
      List.foldl updWrite (updWrite (updWrite init x) y) l
    rw [updWrite_comm init y x hyx]
  | trans h1 h2 ih1 ih2 =>
    intro hnd init
    exact (ih1 hnd init).trans (ih2 ((h1.map Prod.fst).nodup hnd) init)

theorem flatMap_range_of_vanish {α : Type} (f : Nat → List α) (n m : Nat) (hnm : n ≤ m)
    (hf : ∀ k, n ≤ k → f k = []) :
    (List.range m).flatMap f = (List.range n).flatMap f := by
  induction m with
  | zero =>
    have h0 : n = 0 := by omega
    rw [h0]
  | succ m ih =>
    by_cases h : n ≤ m
    · rw [List.range_succ, List.flatMap_append, ih h]
      simp [hf m h]
    · have h1 : n = m + 1 := by omega
      rw [h1]

theorem flatMap_singleton_eq_map {α β : Type} (l : List α) (f : α → List β) (g : α → β)
    (hf : ∀ x ∈ l, f x = [g x]) : l.flatMap f = l.map g := by
  induction l with
  | nil => rfl
  | cons a l ih =>
    rw [List.flatMap_cons, List.map_cons, hf a (List.mem_cons_self _ _),
      ih (fun x hx => hf x (List.mem_cons_of_mem _ hx))]
    rfl

theorem triluSeqWrites_eq_map (lower : Bool) (inA : List Int → Int) (extents : List Nat)
    (lo : List Int) (k : Int) :
    triluSeqWrites lower inA extents lo k =
      (List.range extents.prod).map (fun idx =>
        (unflatten extents idx lo, triluValue lower k inA (unflatten extents idx lo))) := by
  apply flatMap_singleton_eq_map
  intro idx hidx
  rw [List.mem_range] at hidx
  unfold trilu_kernel
  rw [if_neg (by omega)]

theorem triluSeqWrites_keys_nodup (lower : Bool) (inA : List Int → Int)
    (extents : List Nat) (lo : List Int) (k : Int)
    (hlen : lo.length = extents.length) :
    ((triluSeqWrites lower inA extents lo k).map Prod.fst).Nodup := by
  rw [triluSeqWrites_eq_map, List.map_map]
  apply List.Nodup.map_on _ (List.nodup_range _)
  intro i hi j hj hij
  rw [List.mem_range] at hi hj
  by_contra hne
  exact unflatten_inj extents lo hlen i j hi hj hne (by simpa using hij)

theorem flatMap_congr_mem {α β : Type} (l : List α) (f g : α → List β)
    (h : ∀ x ∈ l, f x = g x) : l.flatMap f = l.flatMap g := by
  induction l with
  | nil => rfl
  | cons a l ih =>
    rw [List.flatMap_cons, List.flatMap_cons, h a (List.mem_cons_self _ _),
      ih (fun x hx => h x (List.mem_cons_of_mem _ hx))]

theorem triluGridWrites_eq_seq (lower : Bool) (inA : List Int → Int)
    (extents : List Nat) (lo : List Int) (k : Int)
    (h32 : extents.prod ≤ uint32Size) :
    triluGridWrites lower inA extents lo k = triluSeqWrites lower inA extents lo k := by
  have h32b : extents.prod ≤ 4294967296 := h32
  have hcg : triluGridWrites lower inA extents lo k =
      (List.range (triluBlocks extents.prod * THREADS_PER_BLOCK)).flatMap
        (trilu_kernel lower inA extents lo extents.prod k) := by
    unfold triluGridWrites
    apply flatMap_congr_mem
    intro i hi
    rw [List.mem_range] at hi
    have hi2 : i < (extents.prod + 128 - 1) / 128 * 128 := hi
    have hidx : threadLinearIndex (i / THREADS_PER_BLOCK) (i % THREADS_PER_BLOCK) = i := by
      show (i / 128 * 128 + i % 128) % 4294967296 = i
      omega
    rw [hidx]
  rw [hcg]
  unfold triluSeqWrites
  apply flatMap_range_of_vanish
  · unfold triluBlocks THREADS_PER_BLOCK
    omega
  · intro idx hidx
    unfold trilu_kernel
    rw [if_pos hidx]

/-- C7 counterexample: with extents 33554433 x 128 (volume
`2 ^ 32 + 128`) the 32-bit thread-index computation wraps: grid threads
`(0, 0)` and `(2 ^ 25, 0)` are distinct, both within the launched grid,
yet they compute the same linear index and perform the identical
non-empty write, so not every thread writes a distinct output
element. -/
theorem trilu_grid_write_collision :
    ((0 : Nat), (0 : Nat)) ≠ ((33554432 : Nat), (0 : Nat)) ∧
      33554432 < triluBlocks ([33554433, 128] : List Nat).prod ∧
      (0 : Nat) < THREADS_PER_BLOCK ∧
      threadLinearIndex 33554432 0 = threadLinearIndex 0 0 ∧
      trilu_kernel true (fun _ => 0) [33554433, 128] [0, 0]
          ([33554433, 128] : List Nat).prod 0 (threadLinearIndex 33554432 0) =
        trilu_kernel true (fun _ => 0) [33554433, 128] [0, 0]
          ([33554433, 128] : List Nat).prod 0 (threadLinearIndex 0 0) ∧
      trilu_kernel true (fun _ => 0) [33554433, 128] [0, 0]
          ([33554433, 128] : List Nat).prod 0 (threadLinearIndex 0 0) ≠ [] := by
  exact ⟨by decide, by decide, by decide, by decide, rfl, by decide⟩

/-- C7 amended: for volumes at most `2 ^ 32` (where the 32-bit
thread-index computation does not wrap) distinct in-range linear
indices unflatten to distinct points, the grid's write list coincides
with the sequential loop's write list, and any interleaving
(permutation) of the grid's writes produces the same final array as
the sequential loop; beyond `2 ^ 32` distinct threads collide on one
element. -/
theorem trilu_threads_independent (lower : Bool) (inA : List Int → Int)
    (extents : List Nat) (lo : List Int) (k : Int)
    (hlen : lo.length = extents.length) (h32 : extents.prod ≤ uint32Size) :
    (∀ i j, i < extents.prod → j < extents.prod → i ≠ j →
      unflatten extents i lo ≠ unflatten extents j lo) ∧
      triluGridWrites lower inA extents lo k = triluSeqWrites lower inA extents lo k ∧
      (∀ ws, (triluGridWrites lower inA extents lo k).Perm ws → ∀ init,
        runWrites ws init = runWrites (triluSeqWrites lower inA extents lo k) init) := by
  refine ⟨fun i j hi hj hij => unflatten_inj extents lo hlen i j hi hj hij,
    triluGridWrites_eq_seq lower inA extents lo k h32, ?_⟩
  intro ws hperm init
  rw [triluGridWrites_eq_seq lower inA extents lo k h32] at hperm
  exact (runWrites_perm _ ws hperm
    (triluSeqWrites_keys_nodup lower inA extents lo k hlen) init).symm

/-- Witness for `trilu_threads_independent`: on a 2x2 rectangle (whose
volume is far below `2 ^ 32`) the distinct indices 1 and 2 unflatten to
distinct points. -/
theorem trilu_threads_independent_witness :
    ([0, 0] : List Int).length = ([2, 2] : List Nat).length ∧
      ([2, 2] : List Nat).prod ≤ uint32Size ∧
      unflatten [2, 2] 1 [0, 0] ≠ unflatten [2, 2] 2 [0, 0] :=
  ⟨by decide, by decide,
    (trilu_threads_independent true (fun _ => 0) [2, 2] [0, 0] 0 (by decide)
      (by decide)).1 1 2 (by decide) (by decide) (by decide)⟩

/-- C2 counterexample: for `complex<float>` the CPU dispatcher invokes
`cblas_cherk`, the Hermitian rank-k routine, which is not the vendor's
symmetric rank-k routine for that type (`cblas_csyrk`). -/
theorem syrk_complex_routine_not_symmetric :
    (SyrkImplBody .complex64 0 1 2 2).routine = .cherk ∧
      (SyrkImplBody .complex64 0 1 2 2).routine ≠ vendorSymmetricRankK .complex64 := by
  exact ⟨rfl, by decide⟩

/-- C2 amended: every specialisation calls with the exact argument
tuple (column-major, uplo = lower, trans = no-transpose, m, n,
alpha = -1, rhs, lda = m, beta = 1, lhs, ldc = m); the real
specialisations invoke the symmetric rank-k routine, while the complex
specialisations invoke the Hermitian rank-k routine (`cherk`/`zherk`),
so `lhs` is downdated on its lower triangle by `rhs` times its
(conjugate) transpose. -/
theorem syrk_cpu_call_exact (t : SyrkType) (lhs rhs : Nat) (m n : Int) :
    SyrkImplBody t lhs rhs m n =
      ⟨(match t with
          | .floatT => .ssyrk
          | .doubleT => .dsyrk
          | .complex64 => .cherk
          | .complex128 => .zherk),
        .colMajor, .lower, .noTrans, m, n, -1, rhs, m, 1, lhs, m⟩ := by
  cases t <;> rfl

/-- C3 counterexample: the repository's own `cuda_help.h` does define
error-check macros and helpers — `CHECK_CUDA` and `check_cuda` among
them — so the list of repository-defined error-check macros is not
empty. -/
theorem cuda_help_defines_error_checks :
    cudaHelpErrorCheckMacros ≠ [] ∧
      "CHECK_CUDA" ∈ cudaHelpErrorCheckMacros ∧
      "check_cuda" ∈ cudaHelpErrorCheckHelpers := by
  refine ⟨by decide, ?_, ?_⟩ <;> exact List.mem_cons_self _ _

/-- C3 amended: the five error-check macros the code uses are defined
in the repository's own `cuda_help.h`, and each expands to an
error-check helper that `cuda_help.h` also defines; only the underlying
status codes and query functions come from the vendor SDKs. -/
theorem error_check_macros_are_repo_defined (mac : String)
    (hm : mac ∈ cudaHelpErrorCheckMacros) :
    ∃ h, macroHelper mac = some h ∧ h ∈ cudaHelpErrorCheckHelpers := by
  fin_cases hm <;> exact ⟨_, rfl, by decide⟩

/-- Witness for `error_check_macros_are_repo_defined` at `CHECK_CUDA`. -/
theorem error_check_macros_are_repo_defined_witness :
    "CHECK_CUDA" ∈ cudaHelpErrorCheckMacros ∧
      ∃ h, macroHelper "CHECK_CUDA" = some h ∧ h ∈ cudaHelpErrorCheckHelpers :=
  ⟨by decide, error_check_macros_are_repo_defined "CHECK_CUDA" (by decide)⟩

/-- C4 counterexample: at a concrete invocation the OMP contract shim
performs two observable actions, and the first is setting the
`TBLIS_NUM_THREADS` environment variable, not its vendor call. -/
theorem contract_omp_extra_effect :
    (contractOmpVariant 4 ⟨0, 1, [2], [1], [0]⟩ ⟨10, 1, [2], [1], [0]⟩
        ⟨20, 1, [2], [1], [0]⟩).length = 2 ∧
      (contractOmpVariant 4 ⟨0, 1, [2], [1], [0]⟩ ⟨10, 1, [2], [1], [0]⟩
          ⟨20, 1, [2], [1], [0]⟩).head? =
        some (ShimEffect.setEnvEff "TBLIS_NUM_THREADS" (toString 4) false) :=
  ⟨rfl, rfl⟩

/-- C4 amended: each shim reads only metadata and forwards the raw data
pointers unchanged — the contract shim into the tblis descriptors of
its single `tblis_tensor_mult` call, the syrk shim into its single
cBLAS call, the trilu shim into its single kernel launch; no shim
itself reads or writes an array element, and the only further
observable actions are the contract shim's non-overwriting setenv of
`TBLIS_NUM_THREADS` and the syrk shim's OpenBLAS thread pinning in
OpenMP builds, each before its vendor call. -/
theorem shims_forward_pointers (maxThreads : Nat) (lhs rhs1 rhs2 : Operand)
    (useOpenmp : Bool) (t : SyrkType) (lhsPtr rhsPtr : Nat) (m n : Int)
    (volume : Nat) :
    contractOmpVariant maxThreads lhs rhs1 rhs2 =
        [ShimEffect.setEnvEff "TBLIS_NUM_THREADS" (toString maxThreads) false,
          ShimEffect.tblisMult
            ⟨rhs1.ndim, rhs1.shape, rhs1.strides, rhs1.dataPtr⟩ rhs1.modes
            ⟨rhs2.ndim, rhs2.shape, rhs2.strides, rhs2.dataPtr⟩ rhs2.modes
            ⟨lhs.ndim, lhs.shape, lhs.strides, lhs.dataPtr⟩ lhs.modes] ∧
      syrkCpuVariantTrace useOpenmp t lhsPtr rhsPtr m n =
        (if useOpenmp then [ShimEffect.setOpenblasThreads 1] else []) ++
          [ShimEffect.cblasCall (SyrkImplBody t lhsPtr rhsPtr m n)] ∧
      (SyrkImplBody t lhsPtr rhsPtr m n).aPtr = rhsPtr ∧
      (SyrkImplBody t lhsPtr rhsPtr m n).cPtr = lhsPtr ∧
      triluGpuVariantTrace volume =
        [ShimEffect.kernelLaunchEff (triluBlocks volume) THREADS_PER_BLOCK] ∧
      (∀ e, (e ∈ contractOmpVariant maxThreads lhs rhs1 rhs2 ∨
          e ∈ syrkCpuVariantTrace useOpenmp t lhsPtr rhsPtr m n ∨
          e ∈ triluGpuVariantTrace volume) →
        (∀ p, e ≠ ShimEffect.readElement p) ∧ (∀ p, e ≠ ShimEffect.writeElement p)) := by
  refine ⟨rfl, rfl, by cases t <;> rfl, by cases t <;> rfl, rfl, ?_⟩
  intro e he
  rcases he with h | h | h
  · simp only [contractOmpVariant, ContractImplBody, List.mem_cons,
      List.mem_singleton] at h
    rcases h with h | h
    · subst h
      exact ⟨fun p => by simp, fun p => by simp⟩
    · rcases h with h | h
      · subst h
        exact ⟨fun p => by simp, fun p => by simp⟩
      · exact absurd h (List.not_mem_nil e)
  · cases useOpenmp <;> simp only [syrkCpuVariantTrace] at h
    · rw [if_neg (by simp)] at h
      simp only [List.nil_append, List.mem_singleton] at h
      subst h
      exact ⟨fun p => by simp, fun p => by simp⟩
    · rw [if_pos trivial] at h
      simp only [List.cons_append, List.nil_append, List.mem_cons,
        List.mem_singleton] at h
      rcases h with h | h
      · subst h
        exact ⟨fun p => by simp, fun p => by simp⟩
      · rcases h with h | h
        · subst h
          exact ⟨fun p => by simp, fun p => by simp⟩
        · exact absurd h (List.not_mem_nil e)
  · simp only [triluGpuVariantTrace, List.mem_singleton] at h
    subst h
    exact ⟨fun p => by simp, fun p => by simp⟩

/-- Witness for `shims_forward_pointers`: the setenv effect of a
concrete contract invocation is in one of the shim traces and is
neither an element read nor an element write. -/
theorem shims_forward_pointers_witness :
    (ShimEffect.setEnvEff "TBLIS_NUM_THREADS" (toString 1) false ∈
        contractOmpVariant 1 ⟨0, 1, [2], [1], [0]⟩ ⟨1, 1, [2], [1], [0]⟩
          ⟨2, 1, [2], [1], [0]⟩ ∨
      ShimEffect.setEnvEff "TBLIS_NUM_THREADS" (toString 1) false ∈
        syrkCpuVariantTrace true .floatT 0 1 2 2 ∨
      ShimEffect.setEnvEff "TBLIS_NUM_THREADS" (toString 1) false ∈
        triluGpuVariantTrace 5) ∧
      (∀ p, ShimEffect.setEnvEff "TBLIS_NUM_THREADS" (toString 1) false ≠
        ShimEffect.readElement p) :=
  ⟨Or.inl (List.mem_cons_self _ _),
    ((shims_forward_pointers 1 ⟨0, 1, [2], [1], [0]⟩ ⟨1, 1, [2], [1], [0]⟩
        ⟨2, 1, [2], [1], [0]⟩ true .floatT 0 1 2 2 5).2.2.2.2.2 _
      (Or.inl (List.mem_cons_self _ _))).1⟩

/-- C6 counterexample: the contract OMP shim writes process state that
a later invocation of the same operation reads — after a first run with
4 OpenMP threads, a second run with 8 leaves `TBLIS_NUM_THREADS` at
"4", unlike the same run from a fresh state. -/
theorem contract_omp_state_dependence :
    ((contractOmpState 8 (contractOmpState 4 ⟨[], none⟩)).env.lookup
        "TBLIS_NUM_THREADS" = some (toString 4)) ∧
      ((contractOmpState 8 ⟨[], none⟩).env.lookup "TBLIS_NUM_THREADS" =
        some (toString 8)) ∧
      contractOmpState 8 (contractOmpState 4 ⟨[], none⟩) ≠
        contractOmpState 8 ⟨[], none⟩ := by
  refine ⟨rfl, rfl, ?_⟩
  decide

/-- C6 amended: the three shims are mutually independent — syrk's
thread setting and trilu's no-op do not affect the environment the
contract shim consults, and contract's and trilu's effects do not
affect the OpenBLAS setting syrk overwrites — but the contract OMP
shim itself persists `TBLIS_NUM_THREADS` across its own invocations. -/
theorem shims_cross_independent (st : ProcState) (maxThreads : Nat) :
    (contractOmpState maxThreads (syrkCpuState st)).env =
        (contractOmpState maxThreads st).env ∧
      (contractOmpState maxThreads (triluGpuState st)).env =
        (contractOmpState maxThreads st).env ∧
      (syrkCpuState (contractOmpState maxThreads st)).openblasThreads =
        (syrkCpuState st).openblasThreads ∧
      (syrkCpuState (triluGpuState st)).openblasThreads =
        (syrkCpuState st).openblasThreads ∧
      triluGpuState st = st ∧
      (contractOmpState maxThreads ⟨[], st.openblasThreads⟩).env ≠ [] := by
  refine ⟨rfl, rfl, rfl, rfl, rfl, ?_⟩
  simp [contractOmpState, setenvNoOverwrite]

/-- C9: each `check_*` helper returns normally iff its status equals
the library's success code, and on any non-success status it produces a
diagnostic and terminates via `exit` with that status. -/
theorem check_helpers_exit_iff (s : Int) (file : String) (line : Int) :
    ((check_cuda s file line = .normal ↔ s = cudaSuccess) ∧
      (s ≠ cudaSuccess → ∃ d, check_cuda s file line = .exited d s)) ∧
      ((check_cublas s file line = .normal ↔ s = CUBLAS_STATUS_SUCCESS) ∧
        (s ≠ CUBLAS_STATUS_SUCCESS → ∃ d, check_cublas s file line = .exited d s)) ∧
      ((check_cufft s file line = .normal ↔ s = CUFFT_SUCCESS) ∧
        (s ≠ CUFFT_SUCCESS → ∃ d, check_cufft s file line = .exited d s)) ∧
      ((check_cusolver s file line = .normal ↔ s = CUSOLVER_STATUS_SUCCESS) ∧
        (s ≠ CUSOLVER_STATUS_SUCCESS → ∃ d, check_cusolver s file line = .exited d s)) ∧
      ((check_cutensor s file line = .normal ↔ s = CUTENSOR_STATUS_SUCCESS) ∧
        (s ≠ CUTENSOR_STATUS_SUCCESS → ∃ d, check_cutensor s file line = .exited d s)) := by
  unfold check_cuda check_cublas check_cufft check_cusolver check_cutensor
  unfold cudaSuccess CUBLAS_STATUS_SUCCESS CUFFT_SUCCESS CUSOLVER_STATUS_SUCCESS
    CUTENSOR_STATUS_SUCCESS
  by_cases h : s = 0
  · subst h
    simp
  · simp [h]

/-- Witness for `check_helpers_exit_iff`: a non-success CUDA status at
a concrete call site yields an `exit(status)` outcome. -/
theorem check_helpers_exit_iff_witness :
    (1 : Int) ≠ cudaSuccess ∧ ∃ d, check_cuda 1 "syrk.cc" 33 = .exited d 1 :=
  ⟨by decide, (check_helpers_exit_iff 1 "syrk.cc" 33).1.2 (by decide)⟩

end Cunumeric
